import Mathlib

/-
Verification of src/documentation/code2md.py (RepoToMarkdown): a tool that
walks a directory tree, filters files by extension and exclusion regexes, and
concatenates their contents into a single Markdown document with an index.

Shallow embedding conventions:
- Paths are strings; the scanned tree is given as a mutual inductive
  (`Entry`/`EntryList`) of named files and directories.  A file's path
  relative to the scan root is carried as its list of path components, and
  rendered with "/" separators exactly where the Python code builds the
  corresponding strings (`os.path.join`, `os.path.relpath`).  The root
  directory argument is assumed to be a normalized path (nonempty, no
  trailing slash), so `os.path.join(root, rel)` is `root ++ "/" ++ rel` and
  `os.path.relpath(os.path.join(root, rel), root)` is `rel`.
- A compiled regex pattern is embedded by its `re.search` semantics: a
  Boolean predicate on the probed string (`Pat`).  Every default pattern of
  the source is an escaped literal, optionally followed by `/.*` (which
  `re.search` satisfies iff the literal plus "/" occurs as a substring,
  since `.*` matches the empty string) or anchored with `$` (suffix match);
  the corresponding exact semantics are `substrPat` and `suffixPat` below.
- File reads are embedded by an `attempt` function giving, per encoding, the
  outcome of `open(path, encoding=enc).read()`: success with the decoded
  text, a UnicodeDecodeError, or another I/O error.  A byte-level refinement
  (`attemptOfFs`) runs real decoders for the four encodings the source
  tries, including Python text mode's universal-newline translation.
- Python's `str.lower()` is embedded character-wise for the ASCII alphabet
  of extensions (`Char.toLower`), which is what it does on ASCII input.
- The process's observable behaviour (prints, directory creation, the final
  write) is embedded as a list of `Effect`s plus the produced document;
  `main`'s try/except is modelled on its no-exception path, which is the
  only path the claims below exercise.
-/

namespace Code2md

/-- Lowercase a string character by character; embedding of Python
`str.lower()` on the ASCII alphabet used by path extensions. -/
def lowerStr (s : String) : String := ⟨s.data.map Char.toLower⟩

/-- Does `needle` occur as a contiguous substring of `hay`? -/
def containsSub (needle hay : List Char) : Bool :=
  hay.tails.any (fun t => needle.isPrefixOf t)

/-- The semantics of one compiled exclusion pattern: what `re.search`
answers on a probed path string. -/
def Pat : Type := String → Bool

/-- Semantics of `re.search` for an escaped-literal regex, also covering the
`lit/.*` shape (a match anywhere, since `.*` matches the empty string). -/
def substrPat (lit : String) : Pat := fun s => containsSub lit.data s.data

/-- Semantics of `re.search` for a `lit$` regex: the literal as a suffix. -/
def suffixPat (lit : String) : Pat := fun s => lit.data.isSuffixOf s.data

/-- `self.default_ignore` of `RepoToMarkdown.__init__`, pattern by pattern in
source order.  Comments give the original regex. -/
def default_ignore : List Pat :=
  [ substrPat ".git/"           -- r'\.git/.*'
  , substrPat ".gitignore"      -- r'\.gitignore'
  , substrPat "__pycache__/"    -- r'__pycache__/.*'
  , suffixPat ".pyc"            -- r'\.pyc$'
  , suffixPat ".pyo"            -- r'\.pyo$'
  , substrPat "node_modules/"   -- r'node_modules/.*'
  , substrPat ".vscode/"        -- r'\.vscode/.*'
  , substrPat ".idea/"          -- r'\.idea/.*'
  , substrPat ".DS_Store"       -- r'\.DS_Store'
  , substrPat ".env"            -- r'\.env'
  , suffixPat ".log"            -- r'\.log$'
  , suffixPat ".tmp"            -- r'\.tmp$'
  , substrPat ".cache/"         -- r'\.cache/.*'
  , substrPat "dist/"           -- r'dist/.*'
  , substrPat "build/"          -- r'build/.*'
  , substrPat ".egg-info/"      -- r'\.egg-info/.*'
  , substrPat "venv/"           -- r'venv/.*'
  , substrPat "env/"            -- r'env/.*'
  , substrPat ".venv/"          -- r'\.venv/.*'
  , substrPat ".pytest_cache/"  -- r'\.pytest_cache/.*'
  , substrPat ".coverage"       -- r'\.coverage'
  , substrPat "coverage.xml"    -- r'coverage\.xml'
  , substrPat ".nyc_output/"    -- r'\.nyc_output/.*'
  , substrPat ".next/"          -- r'\.next/.*'
  , substrPat ".nuxt/"          -- r'\.nuxt/.*'
  ]

/-- `self.code_extensions`: the fixed extension-to-label table, in source
order. -/
def code_extensions : List (String × String) :=
  [ (".py", "python"), (".js", "javascript"), (".ts", "typescript")
  , (".jsx", "jsx"), (".tsx", "tsx"), (".java", "java"), (".c", "c")
  , (".cpp", "cpp"), (".cc", "cpp"), (".cxx", "cpp"), (".h", "c")
  , (".hpp", "cpp"), (".cs", "csharp"), (".php", "php"), (".rb", "ruby")
  , (".go", "go"), (".rs", "rust"), (".swift", "swift"), (".kt", "kotlin")
  , (".scala", "scala"), (".sh", "bash"), (".bash", "bash"), (".zsh", "zsh")
  , (".fish", "fish"), (".ps1", "powershell"), (".html", "html")
  , (".htm", "html"), (".css", "css"), (".scss", "scss"), (".sass", "sass")
  , (".less", "less"), (".xml", "xml"), (".json", "json"), (".yaml", "yaml")
  , (".yml", "yaml"), (".toml", "toml"), (".ini", "ini"), (".cfg", "ini")
  , (".conf", "ini"), (".sql", "sql"), (".r", "r"), (".R", "r")
  , (".m", "matlab"), (".pl", "perl"), (".lua", "lua"), (".vim", "vim")
  , (".dockerfile", "dockerfile"), (".Dockerfile", "dockerfile")
  , (".md", "markdown"), (".markdown", "markdown"), (".tex", "latex")
  , (".vue", "vue"), (".svelte", "svelte"), (".dart", "dart")
  , (".elm", "elm"), (".ex", "elixir"), (".exs", "elixir")
  , (".erl", "erlang"), (".hrl", "erlang"), (".clj", "clojure")
  , (".cljs", "clojure"), (".hs", "haskell"), (".lhs", "haskell")
  , (".ml", "ocaml"), (".mli", "ocaml"), (".fs", "fsharp")
  , (".fsx", "fsharp"), (".jl", "julia"), (".nim", "nim")
  , (".nims", "nim"), (".cr", "crystal"), (".zig", "zig"), (".v", "v")
  , (".sv", "systemverilog"), (".vhd", "vhdl"), (".vhdl", "vhdl")
  ]

/-- `os.path.join(base, c1, ..., cn)` for a normalized nonempty `base`
without a trailing slash: interleave "/" between the components. -/
def joinAll (base : String) (comps : List String) : String :=
  comps.foldl (fun a c => a ++ "/" ++ c) base

/-- Render a path relative to the root from its components, as
`os.path.relpath` produces it (components joined by "/"). -/
def renderRel : List String → String
  | [] => ""
  | c :: rest => rest.foldl (fun a x => a ++ "/" ++ x) c

/-- The final path component: everything after the last "/", the whole
string when it has no "/" (`os.path.basename` / `PurePath.name`). -/
def baseNameStr (s : String) : String :=
  ⟨(s.data.reverse.takeWhile (fun c => c != '/')).reverse⟩

/-- `pathlib.PurePath.suffix` of a file name: `name[i:]` for `i` the index
of the last ".", provided `0 < i < len(name) - 1`, else the empty string. -/
def suffixOfName (name : String) : String :=
  let cs := name.data
  match cs.reverse.findIdx? (fun c => c == '.') with
  | none => ""
  | some j =>
    let i := cs.length - 1 - j
    if 0 < i ∧ i < cs.length - 1 then ⟨cs.drop i⟩ else ""

/-- `Path(file_path).suffix`: the suffix of the path's final component. -/
def suffixOfPath (filePath : String) : String :=
  suffixOfName (baseNameStr filePath)

/-- `RepoToMarkdown.get_language_from_extension`: look the lowercased suffix
up in the table, defaulting to "text". -/
def get_language_from_extension (filePath : String) : String :=
  ((code_extensions.find?
      (fun p => p.1 == lowerStr (suffixOfPath filePath))).map (fun p => p.2)).getD "text"

/-- `RepoToMarkdown.is_code_file`: is the lowercased suffix a key of the
table? -/
def is_code_file (filePath : String) : Bool :=
  (code_extensions.find? (fun p => p.1 == lowerStr (suffixOfPath filePath))).isSome

/-- `RepoToMarkdown.should_ignore`: does any pattern of
`default_ignore + ignore_patterns` match the probed path? -/
def should_ignore (ignorePatterns : List Pat) (filePath : String) : Bool :=
  (default_ignore ++ ignorePatterns).any (fun p => p filePath)

mutual

/-- A directory tree entry: a file or a subdirectory with its children. -/
inductive Entry : Type where
  | file (name : String) : Entry
  | dir (name : String) (children : EntryList) : Entry

/-- A directory listing. -/
inductive EntryList : Type where
  | nil : EntryList
  | cons (e : Entry) (es : EntryList) : EntryList

end

mutual

/-- Contribution of one entry of the walk at relative position `relCur` to
`RepoToMarkdown.scan_directory`'s accumulator: a file is kept when its
relative path does not match and its extension is known; a subdirectory is
pruned when `os.path.join(root, d)` matches, else descended into. -/
def collectE (user : List Pat) (dir : String) (relCur : List String) :
    Entry → List (List String)
  | .file n =>
    if !should_ignore user (renderRel (relCur ++ [n]))
        && is_code_file (joinAll dir (relCur ++ [n]))
    then [relCur ++ [n]] else []
  | .dir n cs =>
    if should_ignore user (joinAll dir (relCur ++ [n])) then []
    else collectL user dir (relCur ++ [n]) cs

/-- Walk a directory listing, concatenating each entry's contribution.
`os.walk` emits all files of a directory before descending; since
`scan_directory` sorts its accumulator before returning it, the interleaving
order here is immaterial. -/
def collectL (user : List Pat) (dir : String) (relCur : List String) :
    EntryList → List (List String)
  | .nil => []
  | .cons e es => collectE user dir relCur e ++ collectL user dir relCur es

end

/-- Lexicographic comparison of character lists by code point; the order
Python's `sorted` uses on path strings. -/
def ltChars : List Char → List Char → Bool
  | [], [] => false
  | [], _ :: _ => true
  | _ :: _, [] => false
  | a :: as, b :: bs => if a < b then true else if b < a then false else ltChars as bs

/-- Insert a relative path into a list sorted by full-path key. -/
def insertSorted (dir : String) (x : List String) :
    List (List String) → List (List String)
  | [] => [x]
  | y :: ys =>
    if ltChars (joinAll dir x).data (joinAll dir y).data
    then x :: y :: ys else y :: insertSorted dir x ys

/-- Sort the collected relative paths by their full-path strings, ascending:
the `sorted(code_files)` of `scan_directory` (ties are identical strings, so
stability is immaterial). -/
def sortByFull (dir : String) : List (List String) → List (List String)
  | [] => []
  | x :: xs => insertSorted dir x (sortByFull dir xs)

/-- `RepoToMarkdown.scan_directory`, with results as relative component
lists (the full path of a result `rel` is `joinAll dir rel`). -/
def scanRel (user : List Pat) (dir : String) (es : EntryList) :
    List (List String) :=
  sortByFull dir (collectL user dir [] es)

/-- `RepoToMarkdown.scan_directory`: the sorted full paths themselves. -/
def scan_directory (user : List Pat) (dir : String) (es : EntryList) :
    List String :=
  (scanRel user dir es).map (joinAll dir)

mutual

/-- Does `rel` point, inside this entry, at a file whose extension is in the
table?  This is the tree-shape half of eligibility, separated from the
exclusion checks. -/
def entryHasCode : Entry → List String → Bool
  | .file m, [n] => m == n && is_code_file n
  | .dir m cs, n :: c :: rest => m == n && listHasCode cs (c :: rest)
  | _, _ => false

/-- Does `rel` point at an eligible-extension file inside this listing? -/
def listHasCode : EntryList → List String → Bool
  | .nil, _ => false
  | .cons e es, rel => entryHasCode e rel || listHasCode es rel

end

theorem listHasCode_nil : ∀ es : EntryList, listHasCode es [] = false
  | .nil => rfl
  | .cons e es => by
    have h := listHasCode_nil es
    cases e <;> simp [listHasCode, entryHasCode, h]

theorem mem_insertSorted (dir : String) (x a : List String) :
    ∀ l : List (List String), a ∈ insertSorted dir x l ↔ a = x ∨ a ∈ l
  | [] => by simp [insertSorted]
  | y :: ys => by
    simp only [insertSorted]
    split
    · simp [List.mem_cons]
    · simp only [List.mem_cons, mem_insertSorted dir x a ys]
      tauto

theorem mem_sortByFull (dir : String) (a : List String) :
    ∀ l : List (List String), a ∈ sortByFull dir l ↔ a ∈ l
  | [] => Iff.rfl
  | x :: xs => by
    simp [sortByFull, mem_insertSorted, mem_sortByFull dir a xs]

theorem data_append (a b : String) : (a ++ b).data = a.data ++ b.data := by
  cases a; cases b; rfl

theorem joinAll_append_singleton (dir : String) (l : List String) (n : String) :
    joinAll dir (l ++ [n]) = joinAll dir l ++ "/" ++ n := by
  simp [joinAll, List.foldl_append]

theorem takeWhile_append_of_false {p : Char → Bool} {y : Char} (hy : p y = false) :
    ∀ (xs ys : List Char), (xs ++ y :: ys).takeWhile p = xs.takeWhile p
  | [], ys => by simp [List.takeWhile_cons, hy]
  | x :: xs, ys => by
    simp only [List.cons_append, List.takeWhile_cons]
    cases h : p x <;> simp [takeWhile_append_of_false hy xs ys]

theorem baseName_append (s n : String) : baseNameStr (s ++ "/" ++ n) = baseNameStr n := by
  unfold baseNameStr
  have hdata : (s ++ "/" ++ n).data = s.data ++ '/' :: n.data := by
    rw [data_append, data_append]
    simp [List.append_assoc]
  rw [hdata]
  have hrev : (s.data ++ '/' :: n.data).reverse = n.data.reverse ++ '/' :: s.data.reverse := by
    simp [List.reverse_append]
  rw [hrev, takeWhile_append_of_false (by decide) n.data.reverse s.data.reverse]

theorem is_code_file_join (dir : String) (relCur : List String) (n : String) :
    is_code_file (joinAll dir (relCur ++ [n])) = is_code_file n := by
  unfold is_code_file suffixOfPath
  rw [joinAll_append_singleton, baseName_append]

mutual

theorem mem_collectE (user : List Pat) (dir : String) :
    ∀ (e : Entry) (relCur rel : List String),
      rel ∈ collectE user dir relCur e ↔
        ∃ suf, rel = relCur ++ suf ∧ entryHasCode e suf = true ∧
          should_ignore user (renderRel rel) = false ∧
          ∀ k, 1 ≤ k → k < suf.length →
            should_ignore user (joinAll dir (relCur ++ suf.take k)) = false
  | .file n, relCur, rel => by
    simp only [collectE]
    split
    next hcond =>
      rw [Bool.and_eq_true, Bool.not_eq_true'] at hcond
      constructor
      · intro h
        rw [List.mem_singleton] at h
        subst h
        refine ⟨[n], rfl, ?_, hcond.1, ?_⟩
        · have hc : is_code_file n = true := by
            rw [← is_code_file_join dir relCur n]; exact hcond.2
          simp [entryHasCode, hc]
        · intro k hk1 hk2
          rw [List.length_singleton] at hk2
          exact absurd hk1 (by omega)
      · rintro ⟨suf, hrel, hhas, hign, -⟩
        match suf, hhas with
        | [m], hhas =>
          rw [entryHasCode, Bool.and_eq_true, beq_iff_eq] at hhas
          subst hrel
          rw [hhas.1]
          exact List.mem_singleton.mpr rfl
    next hcond =>
      constructor
      · intro h; exact absurd h (List.not_mem_nil rel)
      · rintro ⟨suf, hrel, hhas, hign, -⟩
        match suf, hhas with
        | [m], hhas =>
          rw [entryHasCode, Bool.and_eq_true, beq_iff_eq] at hhas
          obtain ⟨rfl, hcode⟩ := hhas
          subst hrel
          exact absurd (by
            rw [Bool.and_eq_true, Bool.not_eq_true']
            exact ⟨hign, by rw [is_code_file_join]; exact hcode⟩) hcond
  | .dir n cs, relCur, rel => by
    simp only [collectE]
    split
    next hig =>
      constructor
      · intro h; exact absurd h (List.not_mem_nil rel)
      · rintro ⟨suf, hrel, hhas, -, hanc⟩
        match suf, hhas with
        | m :: c :: rest, hhas =>
          rw [entryHasCode, Bool.and_eq_true, beq_iff_eq] at hhas
          obtain ⟨rfl, -⟩ := hhas
          have h1 := hanc 1 (by omega) (by simp only [List.length_cons]; omega)
          have ht : List.take 1 (n :: c :: rest) = [n] := rfl
          rw [ht] at h1
          rw [hig] at h1
          exact absurd h1 (by decide)
    next hig =>
      rw [Bool.not_eq_true] at hig
      rw [mem_collectL user dir cs (relCur ++ [n]) rel]
      constructor
      · rintro ⟨suf, hrel, hhas, hign, hanc⟩
        have hsne : suf ≠ [] := by
          intro h; subst h; rw [listHasCode_nil] at hhas; exact Bool.false_ne_true hhas
        match suf, hsne with
        | c :: rest, _ =>
          refine ⟨n :: c :: rest, by simpa [List.append_assoc] using hrel, ?_, hign, ?_⟩
          · rw [entryHasCode, Bool.and_eq_true, beq_iff_eq]
            exact ⟨rfl, hhas⟩
          · intro k hk1 hk2
            match k, hk1 with
            | 1, _ =>
              have ht : List.take 1 (n :: c :: rest) = [n] := rfl
              rw [ht]
              exact hig
            | (j+2), _ =>
              have ht : List.take (j+2) (n :: c :: rest) = n :: List.take (j+1) (c :: rest) := rfl
              rw [ht]
              have hj := hanc (j+1) (by omega) (by
                simp only [List.length_cons] at hk2 ⊢; omega)
              simpa [List.append_assoc] using hj
      · rintro ⟨suf, hrel, hhas, hign, hanc⟩
        match suf, hhas with
        | m :: c :: rest, hhas =>
          rw [entryHasCode, Bool.and_eq_true, beq_iff_eq] at hhas
          obtain ⟨rfl, hlist⟩ := hhas
          refine ⟨c :: rest, by simpa [List.append_assoc] using hrel, hlist, hign, ?_⟩
          intro k hk1 hk2
          have hk := hanc (k+1) (by omega) (by
            simp only [List.length_cons] at hk2 ⊢; omega)
          have ht : List.take (k+1) (n :: c :: rest) = n :: List.take k (c :: rest) := rfl
          rw [ht] at hk
          simpa [List.append_assoc] using hk

theorem mem_collectL (user : List Pat) (dir : String) :
    ∀ (es : EntryList) (relCur rel : List String),
      rel ∈ collectL user dir relCur es ↔
        ∃ suf, rel = relCur ++ suf ∧ listHasCode es suf = true ∧
          should_ignore user (renderRel rel) = false ∧
          ∀ k, 1 ≤ k → k < suf.length →
            should_ignore user (joinAll dir (relCur ++ suf.take k)) = false
  | .nil, relCur, rel => by
    simp [collectL, listHasCode]
  | .cons e es, relCur, rel => by
    simp only [collectL, List.mem_append]
    rw [mem_collectE user dir e relCur rel, mem_collectL user dir es relCur rel]
    constructor
    · rintro (⟨suf, hrel, hhas, hign, hanc⟩ | ⟨suf, hrel, hhas, hign, hanc⟩)
      · exact ⟨suf, hrel, by rw [listHasCode, Bool.or_eq_true]; exact Or.inl hhas, hign, hanc⟩
      · exact ⟨suf, hrel, by rw [listHasCode, Bool.or_eq_true]; exact Or.inr hhas, hign, hanc⟩
    · rintro ⟨suf, hrel, hhas, hign, hanc⟩
      rw [listHasCode, Bool.or_eq_true] at hhas
      rcases hhas with hhas | hhas
      · exact Or.inl ⟨suf, hrel, hhas, hign, hanc⟩
      · exact Or.inr ⟨suf, hrel, hhas, hign, hanc⟩

end

/-- Declarative characterization of the scan: a relative path is in the scan
result iff it leads to a file with a known extension, its relative path
matches no pattern, and for each of its proper ancestor directories the path
`os.path.join(root, ancestor)` (note: root-prefixed, not relative) matches
no pattern. -/
theorem mem_scanRel (user : List Pat) (dir : String) (es : EntryList)
    (rel : List String) :
    rel ∈ scanRel user dir es ↔
      listHasCode es rel = true ∧
      should_ignore user (renderRel rel) = false ∧
      ∀ k, 1 ≤ k → k < rel.length →
        should_ignore user (joinAll dir (rel.take k)) = false := by
  unfold scanRel
  rw [mem_sortByFull, mem_collectL user dir es [] rel]
  constructor
  · rintro ⟨suf, hrel, hhas, hign, hanc⟩
    rw [List.nil_append] at hrel
    subst hrel
    exact ⟨hhas, hign, by simpa using hanc⟩
  · rintro ⟨hhas, hign, hanc⟩
    exact ⟨rel, (List.nil_append rel).symm, hhas, hign, by simpa using hanc⟩

/-- Outcome of one `open(file_path, 'r', encoding=enc)` + `read()` attempt:
the decoded text, a `UnicodeDecodeError`, or any other exception with its
message. -/
inductive ReadOutcome : Type where
  | ok (text : String) : ReadOutcome
  | decodeFailed : ReadOutcome
  | otherError (msg : String) : ReadOutcome

/-- The fixed encoding list of `get_file_content`, in source order. -/
def encodings : List String := ["utf-8", "latin-1", "cp1252", "iso-8859-1"]

/-- The `for encoding in encodings` loop of `get_file_content`: return the
first successful read, skip to the next encoding on `UnicodeDecodeError`,
return the error placeholder on any other exception, and fall through to
the undecodable placeholder when the list is exhausted. -/
def readLoop (attempt : String → ReadOutcome) : List String → String
  | [] => "# Arquivo não pôde ser decodificado"
  | e :: rest =>
    match attempt e with
    | .ok s => s
    | .decodeFailed => readLoop attempt rest
    | .otherError msg => "# Erro ao ler arquivo: " ++ msg

/-- `RepoToMarkdown.get_file_content`, parametrized by the outcome of each
encoding's read attempt for the file at hand. -/
def get_file_content (attempt : String → ReadOutcome) : String :=
  readLoop attempt encodings

/-- Does the string end with a newline (`content.endswith('\n')`)? -/
def endsWithNL (s : String) : Bool :=
  match s.data.getLast? with
  | some c => c == '\n'
  | none => false

/-- The text written between the fences for a file's content: the two
consecutive writes `f.write(content)` and, when the content does not end
with a newline, `f.write('\n')`. -/
def fencedBody (content : String) : String :=
  if endsWithNL content then content else content ++ "\n"

/-- One write of `generate_markdown` to the output document, holding the
data interpolated into the written text. -/
inductive MdItem : Type where
  | header (repoName : String) : MdItem
  | intro (repoName : String) : MdItem
  | total (n : Nat) : MdItem
  | indexHeader : MdItem
  | indexEntry (relPath anchor : String) : MdItem
  | indexEnd : MdItem
  | fileHeading (relPath : String) : MdItem
  | pathLine (relPath : String) : MdItem
  | langLine (lang : String) : MdItem
  | codeBlock (lang body : String) : MdItem
  | fileSep : MdItem

/-- The exact text of each write of `generate_markdown`. -/
def renderItem : MdItem → String
  | .header name => "# Código Fonte - " ++ name ++ "\n\n"
  | .intro name =>
      "Este documento contém todo o código fonte do repositório `" ++ name ++ "`.\n\n"
  | .total n => "**Total de arquivos:** " ++ toString n ++ "\n\n"
  | .indexHeader => "## Índice\n\n"
  | .indexEntry rel anchor => "- [" ++ rel ++ "](#" ++ anchor ++ ")\n"
  | .indexEnd => "\n---\n\n"
  | .fileHeading rel => "## " ++ rel ++ "\n\n"
  | .pathLine rel => "**Caminho:** `" ++ rel ++ "`\n"
  | .langLine lang => "**Linguagem:** " ++ lang ++ "\n\n"
  | .codeBlock lang body => "```" ++ lang ++ "\n" ++ body ++ "```\n\n"
  | .fileSep => "---\n\n"

/-- The whole document text: the concatenation of all writes. -/
def renderDoc (doc : List MdItem) : String :=
  String.join (doc.map renderItem)

/-- The anchor derivation
`relative_path.replace('/', '-').replace('.', '-').replace('_', '-')`,
character for character (each replacement maps one character to one
character, so the three sequential passes equal one character map). -/
def anchorChar (c : Char) : Char :=
  if c == '/' || c == '.' || c == '_' then '-' else c

/-- The full anchor: the replacements followed by `.lower()`. -/
def anchorOf (rel : String) : String :=
  lowerStr ⟨rel.data.map anchorChar⟩

/-- The five writes of `generate_markdown`'s per-file loop body for one
file, given the per-path read attempts. -/
def fileSection (attempt : String → String → ReadOutcome) (dir : String)
    (rel : List String) : List MdItem :=
  let relS := renderRel rel
  let fullPath := joinAll dir rel
  let language := get_language_from_extension fullPath
  [ .fileHeading relS, .pathLine relS, .langLine language
  , .codeBlock language (fencedBody (get_file_content (attempt fullPath)))
  , .fileSep ]

/-- The document `generate_markdown` writes for a nonempty sorted file
list: header block, index (one entry per file), separator, then one section
per file in the same order. -/
def mkDoc (attempt : String → String → ReadOutcome) (dir : String)
    (files : List (List String)) : List MdItem :=
  [ .header (baseNameStr dir), .intro (baseNameStr dir)
  , .total files.length, .indexHeader ]
  ++ files.map (fun rel => .indexEntry (renderRel rel) (anchorOf (renderRel rel)))
  ++ [ .indexEnd ]
  ++ (files.map (fileSection attempt dir)).flatten

/-- An externally observable action of the run. -/
inductive Effect : Type where
  | printed (msg : String) : Effect
  | madeDirs (path : String) : Effect
  | wroteFile (path : String) (doc : List MdItem) : Effect

/-- `RepoToMarkdown.generate_markdown`: scan, then either report that no
code file was found (producing no output file), or write the document.
`repoName` comes from `os.path.basename(os.path.abspath(directory))`, which
for a normalized absolute-style root is `baseNameStr`.  The progress prints
happen while the output file is open; the single `wroteFile` effect stands
for the file having been written with the complete document.  The byte-size
print elides the thousands-separator formatting of `{:,}`. -/
def generate_markdown (attempt : String → String → ReadOutcome)
    (user : List Pat) (dir outputFile : String) (es : EntryList) :
    List Effect × Option (List MdItem) :=
  let scanEff := Effect.printed ("Escaneando diretório: " ++ dir)
  let files := scanRel user dir es
  if files.isEmpty then
    ([scanEff, Effect.printed "Nenhum arquivo de código encontrado!"], none)
  else
    let doc := mkDoc attempt dir files
    ( [scanEff
      , Effect.printed ("Encontrados " ++ toString files.length ++ " arquivos de código")]
      ++ files.enum.map (fun p =>
          Effect.printed ("Processando (" ++ toString (p.1 + 1) ++ "/"
            ++ toString files.length ++ "): " ++ renderRel p.2))
      ++ [ Effect.wroteFile outputFile doc
         , Effect.printed ("Arquivo Markdown gerado: " ++ outputFile)
         , Effect.printed ("Tamanho do arquivo: "
             ++ toString (renderDoc doc).utf8ByteSize ++ " bytes") ]
    , some doc)

/-- `str.endswith` on strings. -/
def strEndsWith (s suffix : String) : Bool :=
  suffix.data.isSuffixOf s.data

/-- `os.path.dirname`: everything before the last "/" (keeping a leading
"/"), the empty string when there is no "/". -/
def dirNameStr (s : String) : String :=
  let cs := s.data
  match cs.reverse.findIdx? (fun c => c == '/') with
  | none => ""
  | some j => ⟨cs.take (cs.length - 1 - j)⟩

/-- The parsed command line: the positional root directory, the required
output path (`-o`), and the user exclusion patterns (each `-x` value is split on
"|" into independent patterns before reaching `RepoToMarkdown`; `exclude`
holds the resulting merged pattern list by its `re.search` semantics). -/
structure Args : Type where
  directory : String
  output : String
  exclude : List Pat

/-- The filesystem facts `main` queries besides the scanned tree:
`os.path.isdir` and `os.path.exists`. -/
structure World : Type where
  isDir : String → Bool
  pathExists : String → Bool

/-- `main` after argument parsing, returning the exit status passed to
`exit(...)` together with the run's effects.  The `try` around
`generate_markdown` is modelled on its no-exception path: the embedding of
the generation is total, and per-file read failures are already converted
to placeholder content inside `get_file_content`. -/
def mainRun (w : World) (attempt : String → String → ReadOutcome)
    (es : EntryList) (args : Args) : Int × List Effect :=
  if w.isDir args.directory = false then
    (1, [Effect.printed ("Erro: Diretório \x27" ++ args.directory ++ "\x27 não encontrado!")])
  else
    let warnEffs :=
      if strEndsWith args.output ".md" then []
      else [Effect.printed "Aviso: Arquivo de saída não tem extensão .md"]
    let outDir := dirNameStr args.output
    let mkdirEffs :=
      if outDir != "" && !(w.pathExists outDir) then [Effect.madeDirs outDir] else []
    let gen := generate_markdown attempt args.exclude args.directory args.output es
    (0, warnEffs ++ mkdirEffs ++ gen.1 ++ [Effect.printed "Conversão concluída com sucesso!"])

/-- The relative paths of the index entries of a document, in order. -/
def indexPathsOf (doc : List MdItem) : List String :=
  doc.filterMap (fun item =>
    match item with
    | .indexEntry rel _ => some rel
    | _ => none)

/-- The relative paths of the per-file headings of a document, in order. -/
def headingPathsOf (doc : List MdItem) : List String :=
  doc.filterMap (fun item =>
    match item with
    | .fileHeading rel => some rel
    | _ => none)

/-- The tags on the fenced blocks of a document, in order. -/
def fenceTagsOf (doc : List MdItem) : List String :=
  doc.filterMap (fun item =>
    match item with
    | .codeBlock lang _ => some lang
    | _ => none)

/-- The bodies written between the fences of a document, in order. -/
def fenceBodiesOf (doc : List MdItem) : List String :=
  doc.filterMap (fun item =>
    match item with
    | .codeBlock _ body => some body
    | _ => none)

/-- Case-insensitive lookup of the file's extension in the table, as the
spec words it: the value of the entry whose key equals the extension up to
case, or the fallback label "text" when no entry matches. -/
def ciLanguageOf (filePath : String) : String :=
  ((code_extensions.find?
      (fun p => lowerStr p.1 == lowerStr (suffixOfPath filePath))).map
    (fun p => p.2)).getD "text"

theorem toNat_ofNat_of_lt {m : Nat} (h : m < 55296) : (Char.ofNat m).toNat = m := by
  have hv : m.isValidChar := Or.inl h
  rw [Char.ofNat, dif_pos hv]
  simp [Char.ofNatAux, Char.toNat, UInt32.toNat]

theorem toLower_toLower (c : Char) : c.toLower.toLower = c.toLower := by
  have key : ∀ d : Char, (d.toNat < 65 ∨ 90 < d.toNat) → d.toLower = d := by
    intro d hd
    simp only [Char.toLower]
    rw [if_neg (by omega)]
  by_cases h : c.toNat ≥ 65 ∧ c.toNat ≤ 90
  · have h1 : c.toLower = Char.ofNat (c.toNat + 32) := by
      simp only [Char.toLower]
      rw [if_pos h]
    have hn : (Char.ofNat (c.toNat + 32)).toNat = c.toNat + 32 :=
      toNat_ofNat_of_lt (by omega)
    rw [h1]
    exact key _ (Or.inr (by rw [hn]; omega))
  · have h1 : c.toLower = c := key c (by omega)
    rw [h1, h1]

theorem lowerStr_idem (s : String) : lowerStr (lowerStr s) = lowerStr s := by
  unfold lowerStr
  congr 1
  show (s.data.map Char.toLower).map Char.toLower = s.data.map Char.toLower
  rw [List.map_map]
  apply List.map_congr_left
  intro a _
  simp only [Function.comp_apply]
  exact toLower_toLower a

theorem lowered_ne_R (t : String) (ht : lowerStr t = t) : t ≠ ".R" := by
  intro h
  subst h
  have he : lowerStr ".R" = ".r" := by decide
  rw [he] at ht
  exact absurd ht (by decide)

theorem lowered_ne_D (t : String) (ht : lowerStr t = t) : t ≠ ".Dockerfile" := by
  intro h
  subst h
  have he : lowerStr ".Dockerfile" = ".dockerfile" := by decide
  rw [he] at ht
  exact absurd ht (by decide)

theorem find?_congr_pred {α : Type} (p q : α → Bool) :
    ∀ l : List α, (∀ x ∈ l, p x = q x) → l.find? p = l.find? q
  | [], _ => rfl
  | x :: xs, h => by
    have hx := h x (List.mem_cons_self x xs)
    have ih := find?_congr_pred p q xs (fun y hy => h y (List.mem_cons_of_mem x hy))
    cases hq : q x
    · rw [List.find?_cons_of_neg xs (by rw [hx, hq]; exact Bool.false_ne_true)
        , List.find?_cons_of_neg xs (by rw [hq]; exact Bool.false_ne_true), ih]
    · rw [List.find?_cons_of_pos xs (by rw [hx, hq])
        , List.find?_cons_of_pos xs (by rw [hq])]

/-- The first segment of the table: all entries before `.r`. -/
def extTableA : List (String × String) :=
  [ (".py", "python"), (".js", "javascript"), (".ts", "typescript")
  , (".jsx", "jsx"), (".tsx", "tsx"), (".java", "java"), (".c", "c")
  , (".cpp", "cpp"), (".cc", "cpp"), (".cxx", "cpp"), (".h", "c")
  , (".hpp", "cpp"), (".cs", "csharp"), (".php", "php"), (".rb", "ruby")
  , (".go", "go"), (".rs", "rust"), (".swift", "swift"), (".kt", "kotlin")
  , (".scala", "scala"), (".sh", "bash"), (".bash", "bash"), (".zsh", "zsh")
  , (".fish", "fish"), (".ps1", "powershell"), (".html", "html")
  , (".htm", "html"), (".css", "css"), (".scss", "scss"), (".sass", "sass")
  , (".less", "less"), (".xml", "xml"), (".json", "json"), (".yaml", "yaml")
  , (".yml", "yaml"), (".toml", "toml"), (".ini", "ini"), (".cfg", "ini")
  , (".conf", "ini"), (".sql", "sql") ]

/-- The entries of the table strictly between `.R` and `.dockerfile`. -/
def extTableB : List (String × String) :=
  [ (".m", "matlab"), (".pl", "perl"), (".lua", "lua"), (".vim", "vim") ]

/-- The entries of the table after `.Dockerfile`. -/
def extTableC : List (String × String) :=
  [ (".md", "markdown"), (".markdown", "markdown"), (".tex", "latex")
  , (".vue", "vue"), (".svelte", "svelte"), (".dart", "dart")
  , (".elm", "elm"), (".ex", "elixir"), (".exs", "elixir")
  , (".erl", "erlang"), (".hrl", "erlang"), (".clj", "clojure")
  , (".cljs", "clojure"), (".hs", "haskell"), (".lhs", "haskell")
  , (".ml", "ocaml"), (".mli", "ocaml"), (".fs", "fsharp")
  , (".fsx", "fsharp"), (".jl", "julia"), (".nim", "nim")
  , (".nims", "nim"), (".cr", "crystal"), (".zig", "zig"), (".v", "v")
  , (".sv", "systemverilog"), (".vhd", "vhdl"), (".vhdl", "vhdl") ]

theorem code_extensions_decomp :
    code_extensions
      = extTableA ++ [(".r", "r"), (".R", "r")] ++ extTableB
        ++ [(".dockerfile", "dockerfile"), (".Dockerfile", "dockerfile")]
        ++ extTableC := by
  rfl

theorem extTableA_keys_lower : ∀ p ∈ extTableA, lowerStr p.1 = p.1 := by decide

theorem extTableB_keys_lower : ∀ p ∈ extTableB, lowerStr p.1 = p.1 := by decide

theorem extTableC_keys_lower : ∀ p ∈ extTableC, lowerStr p.1 = p.1 := by decide

/-- On lowercase-fixed query strings, exact lookup of the table agrees with
the case-insensitive lookup.  The keys `.R` and `.Dockerfile`, the only
ones that are not lowercase, carry the same values as the earlier entries
`.r` and `.dockerfile`, so the two lookups return the same entry in every
case. -/
theorem find?_eq_ci (t : String) (ht : lowerStr t = t) :
    code_extensions.find? (fun p => p.1 == t)
      = code_extensions.find? (fun p => lowerStr p.1 == t) := by
  have hR : t ≠ ".R" := lowered_ne_R t ht
  have hD : t ≠ ".Dockerfile" := lowered_ne_D t ht
  have hA : extTableA.find? (fun p => p.1 == t)
      = extTableA.find? (fun p => lowerStr p.1 == t) :=
    find?_congr_pred _ _ extTableA (fun x hx => by rw [extTableA_keys_lower x hx])
  have hB : extTableB.find? (fun p => p.1 == t)
      = extTableB.find? (fun p => lowerStr p.1 == t) :=
    find?_congr_pred _ _ extTableB (fun x hx => by rw [extTableB_keys_lower x hx])
  have hC : extTableC.find? (fun p => p.1 == t)
      = extTableC.find? (fun p => lowerStr p.1 == t) :=
    find?_congr_pred _ _ extTableC (fun x hx => by rw [extTableC_keys_lower x hx])
  have hRseg : ([(".r", "r"), (".R", "r")] : List (String × String)).find?
        (fun p => p.1 == t)
      = ([(".r", "r"), (".R", "r")] : List (String × String)).find?
        (fun p => lowerStr p.1 == t) := by
    by_cases h : (".r" : String) = t
    · subst h
      decide
    · have hb1 : ((".r" : String) == t) = false := beq_eq_false_iff_ne.mpr h
      have hb2 : ((".R" : String) == t) = false := beq_eq_false_iff_ne.mpr (Ne.symm hR)
      have e1 : lowerStr ".r" = ".r" := by decide
      have e2 : lowerStr ".R" = ".r" := by decide
      simp [List.find?, hb1, hb2, e1, e2]
  have hDseg : ([(".dockerfile", "dockerfile"), (".Dockerfile", "dockerfile")]
        : List (String × String)).find? (fun p => p.1 == t)
      = ([(".dockerfile", "dockerfile"), (".Dockerfile", "dockerfile")]
        : List (String × String)).find? (fun p => lowerStr p.1 == t) := by
    by_cases h : (".dockerfile" : String) = t
    · subst h
      decide
    · have hb1 : ((".dockerfile" : String) == t) = false := beq_eq_false_iff_ne.mpr h
      have hb2 : ((".Dockerfile" : String) == t) = false :=
        beq_eq_false_iff_ne.mpr (Ne.symm hD)
      have e1 : lowerStr ".dockerfile" = ".dockerfile" := by decide
      have e2 : lowerStr ".Dockerfile" = ".dockerfile" := by decide
      simp [List.find?, hb1, hb2, e1, e2]
  rw [code_extensions_decomp]
  simp only [List.find?_append]
  rw [hA, hB, hC, hRseg, hDseg]

/-- The code's lowercase-then-exact lookup is the case-insensitive lookup
of the raw extension. -/
theorem get_language_eq_ci (filePath : String) :
    get_language_from_extension filePath = ciLanguageOf filePath := by
  unfold get_language_from_extension ciLanguageOf
  rw [find?_eq_ci (lowerStr (suffixOfPath filePath)) (lowerStr_idem _)]

theorem filterMap_entries_none {β : Type} (f : MdItem → Option β)
    (hf : ∀ r a, f (.indexEntry r a) = none) :
    ∀ files : List (List String),
      (files.map (fun rel =>
        MdItem.indexEntry (renderRel rel) (anchorOf (renderRel rel)))).filterMap f = []
  | [] => rfl
  | rel :: files => by
    simp only [List.map_cons]
    rw [List.filterMap_cons_none (by rw [hf])]
    exact filterMap_entries_none f hf files

theorem filterMap_entries_idx :
    ∀ files : List (List String),
      indexPathsOf (files.map (fun rel =>
        MdItem.indexEntry (renderRel rel) (anchorOf (renderRel rel)))) = files.map renderRel
  | [] => rfl
  | rel :: files => by
    have ih := filterMap_entries_idx files
    simp only [List.map_cons]
    unfold indexPathsOf at ih ⊢
    exact congrArg (List.cons (renderRel rel)) ih

theorem filterMap_sections_none {β : Type} (attempt : String → String → ReadOutcome)
    (dir : String) (f : MdItem → Option β)
    (hf : ∀ rel, (fileSection attempt dir rel).filterMap f = []) :
    ∀ files : List (List String),
      ((files.map (fileSection attempt dir)).flatten).filterMap f = []
  | [] => rfl
  | rel :: files => by
    simp only [List.map_cons, List.flatten_cons]
    rw [List.filterMap_append, hf rel,
      filterMap_sections_none attempt dir f hf files]
    rfl

theorem filterMap_sections_each {β : Type} (attempt : String → String → ReadOutcome)
    (dir : String) (f : MdItem → Option β) (g : List String → β)
    (hf : ∀ rel, (fileSection attempt dir rel).filterMap f = [g rel]) :
    ∀ files : List (List String),
      ((files.map (fileSection attempt dir)).flatten).filterMap f = files.map g
  | [] => rfl
  | rel :: files => by
    simp only [List.map_cons, List.flatten_cons]
    rw [List.filterMap_append, hf rel,
      filterMap_sections_each attempt dir f g hf files]
    rfl

theorem indexPathsOf_mkDoc (attempt : String → String → ReadOutcome)
    (dir : String) (files : List (List String)) :
    indexPathsOf (mkDoc attempt dir files) = files.map renderRel := by
  unfold mkDoc indexPathsOf
  simp only [List.filterMap_append]
  have he := filterMap_entries_idx files
  unfold indexPathsOf at he
  rw [he]
  have hs := filterMap_sections_none attempt dir
    (fun item => match item with | .indexEntry rel _ => some rel | _ => none)
    (fun _ => rfl) files
  rw [hs]
  simp

theorem headingPathsOf_mkDoc (attempt : String → String → ReadOutcome)
    (dir : String) (files : List (List String)) :
    headingPathsOf (mkDoc attempt dir files) = files.map renderRel := by
  unfold mkDoc headingPathsOf
  simp only [List.filterMap_append]
  rw [filterMap_entries_none
    (fun item => match item with | .fileHeading rel => some rel | _ => none)
    (fun _ _ => rfl) files]
  rw [filterMap_sections_each attempt dir
    (fun item => match item with | .fileHeading rel => some rel | _ => none)
    renderRel (fun _ => rfl) files]
  simp

theorem fenceTagsOf_mkDoc (attempt : String → String → ReadOutcome)
    (dir : String) (files : List (List String)) :
    fenceTagsOf (mkDoc attempt dir files)
      = files.map (fun rel => get_language_from_extension (joinAll dir rel)) := by
  unfold mkDoc fenceTagsOf
  simp only [List.filterMap_append]
  rw [filterMap_entries_none
    (fun item => match item with | .codeBlock lang _ => some lang | _ => none)
    (fun _ _ => rfl) files]
  rw [filterMap_sections_each attempt dir
    (fun item => match item with | .codeBlock lang _ => some lang | _ => none)
    (fun rel => get_language_from_extension (joinAll dir rel)) (fun _ => rfl) files]
  simp

theorem fenceBodiesOf_mkDoc (attempt : String → String → ReadOutcome)
    (dir : String) (files : List (List String)) :
    fenceBodiesOf (mkDoc attempt dir files)
      = files.map (fun rel =>
          fencedBody (get_file_content (attempt (joinAll dir rel)))) := by
  unfold mkDoc fenceBodiesOf
  simp only [List.filterMap_append]
  rw [filterMap_entries_none
    (fun item => match item with | .codeBlock _ body => some body | _ => none)
    (fun _ _ => rfl) files]
  rw [filterMap_sections_each attempt dir
    (fun item => match item with | .codeBlock _ body => some body | _ => none)
    (fun rel => fencedBody (get_file_content (attempt (joinAll dir rel))))
    (fun _ => rfl) files]
  simp

theorem generate_markdown_doc (attempt : String → String → ReadOutcome)
    (user : List Pat) (dir outputFile : String) (es : EntryList)
    (doc : List MdItem)
    (h : (generate_markdown attempt user dir outputFile es).2 = some doc) :
    doc = mkDoc attempt dir (scanRel user dir es) := by
  unfold generate_markdown at h
  by_cases he : (scanRel user dir es).isEmpty
  · rw [if_pos he] at h
    exact absurd h (by simp)
  · rw [if_neg he] at h
    simp only [Option.some_inj] at h
    exact h.symm

/-- A byte, as the value read from the file. -/
def Byte : Type := Fin 256

/-- latin-1 decodes one byte to the code point of the same value; it is
total on all 256 byte values. -/
def latin1Char (b : Byte) : Char := Char.ofNat b.val

/-- The latin-1 (and iso-8859-1) decoding of a byte sequence. -/
def latin1Decode (bs : List Byte) : List Char := bs.map latin1Char

/-- The Windows-1252 mapping on 0x80-0x9F; five bytes are undefined. -/
def cp1252High (n : Nat) : Option Nat :=
  if n = 0x80 then some 0x20AC else if n = 0x82 then some 0x201A
  else if n = 0x83 then some 0x0192 else if n = 0x84 then some 0x201E
  else if n = 0x85 then some 0x2026 else if n = 0x86 then some 0x2020
  else if n = 0x87 then some 0x2021 else if n = 0x88 then some 0x02C6
  else if n = 0x89 then some 0x2030 else if n = 0x8A then some 0x0160
  else if n = 0x8B then some 0x2039 else if n = 0x8C then some 0x0152
  else if n = 0x8E then some 0x017D else if n = 0x91 then some 0x2018
  else if n = 0x92 then some 0x2019 else if n = 0x93 then some 0x201C
  else if n = 0x94 then some 0x201D else if n = 0x95 then some 0x2022
  else if n = 0x96 then some 0x2013 else if n = 0x97 then some 0x2014
  else if n = 0x98 then some 0x02DC else if n = 0x99 then some 0x2122
  else if n = 0x9A then some 0x0161 else if n = 0x9B then some 0x203A
  else if n = 0x9C then some 0x0153 else if n = 0x9E then some 0x017E
  else if n = 0x9F then some 0x0178 else none

/-- cp1252 decoding of one byte: latin-1-like outside 0x80-0x9F, the
Windows table inside it, failing on the undefined bytes. -/
def cp1252Char (b : Byte) : Option Char :=
  if b.val < 0x80 || 0x9F < b.val then some (Char.ofNat b.val)
  else (cp1252High b.val).map Char.ofNat

/-- cp1252 decoding of a byte sequence. -/
def cp1252Decode (bs : List Byte) : Option (List Char) := bs.mapM cp1252Char

/-- Is the byte a UTF-8 continuation byte? -/
def contByte (b : Byte) : Bool := 0x80 ≤ b.val && b.val ≤ 0xBF

/-- Strict UTF-8 decoding (rejecting overlong forms and surrogates), as the
utf-8 codec validates input. -/
def utf8Decode : List Byte → Option (List Char)
  | [] => some []
  | b :: rest =>
    if b.val ≤ 0x7F then (utf8Decode rest).map (fun cs => Char.ofNat b.val :: cs)
    else if 0xC2 ≤ b.val && b.val ≤ 0xDF then
      match rest with
      | b1 :: rest1 =>
        if contByte b1 then
          (utf8Decode rest1).map (fun cs =>
            Char.ofNat ((b.val - 0xC0) * 0x40 + (b1.val - 0x80)) :: cs)
        else none
      | [] => none
    else if 0xE0 ≤ b.val && b.val ≤ 0xEF then
      match rest with
      | b1 :: b2 :: rest2 =>
        let lo1 := if b.val == 0xE0 then 0xA0 else 0x80
        let hi1 := if b.val == 0xED then 0x9F else 0xBF
        if lo1 ≤ b1.val && b1.val ≤ hi1 && contByte b2 then
          (utf8Decode rest2).map (fun cs =>
            Char.ofNat ((b.val - 0xE0) * 0x1000
              + (b1.val - 0x80) * 0x40 + (b2.val - 0x80)) :: cs)
        else none
      | _ => none
    else if 0xF0 ≤ b.val && b.val ≤ 0xF4 then
      match rest with
      | b1 :: b2 :: b3 :: rest3 =>
        let lo1 := if b.val == 0xF0 then 0x90 else 0x80
        let hi1 := if b.val == 0xF4 then 0x8F else 0xBF
        if lo1 ≤ b1.val && b1.val ≤ hi1 && contByte b2 && contByte b3 then
          (utf8Decode rest3).map (fun cs =>
            Char.ofNat ((b.val - 0xF0) * 0x40000 + (b1.val - 0x80) * 0x1000
              + (b2.val - 0x80) * 0x40 + (b3.val - 0x80)) :: cs)
        else none
      | _ => none
    else none

/-- Universal-newline translation of Python text mode: CRLF and lone CR
become LF. -/
def univNewlines : List Char → List Char
  | [] => []
  | '\r' :: '\n' :: rest => '\n' :: univNewlines rest
  | '\r' :: rest => '\n' :: univNewlines rest
  | c :: rest => c :: univNewlines rest

/-- Decode a byte sequence under one of the four encodings the loader
tries; latin-1 and its alias iso-8859-1 are total. -/
def decodeBytes (encoding : String) (bs : List Byte) : Option String :=
  if encoding == "utf-8" then (utf8Decode bs).map (fun cs => ⟨cs⟩)
  else if encoding == "latin-1" then some ⟨latin1Decode bs⟩
  else if encoding == "cp1252" then (cp1252Decode bs).map (fun cs => ⟨cs⟩)
  else if encoding == "iso-8859-1" then some ⟨latin1Decode bs⟩
  else none

/-- The byte-level refinement of one read attempt: opening the file either
fails with an I/O error or yields its bytes, which the encoding then
decodes (with newline translation) or rejects with a `UnicodeDecodeError`. -/
def attemptOfFs (fs : String → Except String (List Byte)) (path : String)
    (encoding : String) : ReadOutcome :=
  match fs path with
  | .error e => .otherError e
  | .ok bs =>
    match decodeBytes encoding bs with
    | some s => .ok ⟨univNewlines s.data⟩
    | none => .decodeFailed

mutual

/-- Modelled from the spec's words for C2: the scan in which the pruning
decision, like the file decision, probes the subdirectory's path relative
to the root directory. -/
def collectSpecE (user : List Pat) (dir : String) (relCur : List String) :
    Entry → List (List String)
  | .file n =>
    if !should_ignore user (renderRel (relCur ++ [n]))
        && is_code_file (joinAll dir (relCur ++ [n]))
    then [relCur ++ [n]] else []
  | .dir n cs =>
    if should_ignore user (renderRel (relCur ++ [n])) then []
    else collectSpecL user dir (relCur ++ [n]) cs

/-- Walk of the listing under the spec-side pruning rule. -/
def collectSpecL (user : List Pat) (dir : String) (relCur : List String) :
    EntryList → List (List String)
  | .nil => []
  | .cons e es => collectSpecE user dir relCur e ++ collectSpecL user dir relCur es

end

/-- The scan as the spec's words describe it: both exclusion decisions made
on root-relative paths. -/
def scanRelSpec (user : List Pat) (dir : String) (es : EntryList) :
    List (List String) :=
  sortByFull dir (collectSpecL user dir [] es)

/-- Claim C2 as stated: every exclusion decision of the scan — pruning and
file exclusion alike — probes the path relative to the root, i.e. the
implemented scan coincides with the relative-path scan. -/
def claimC2 : Prop :=
  ∀ (user : List Pat) (dir : String) (es : EntryList),
    scanRel user dir es = scanRelSpec user dir es

mutual

/-- Does `rel` point at a directory inside this entry? -/
def entryIsDirAt : Entry → List String → Bool
  | .dir m _, [n] => m == n
  | .dir m cs, n :: c :: rest => m == n && listIsDirAt cs (c :: rest)
  | _, _ => false

/-- Does `rel` point at a directory inside this listing? -/
def listIsDirAt : EntryList → List String → Bool
  | .nil, _ => false
  | .cons e es, rel => entryIsDirAt e rel || listIsDirAt es rel

end

/-- Claim C3 as stated: whenever the relative path of a directory of the
tree matches the exclusion set, no file below that directory is scanned. -/
def claimC3 : Prop :=
  ∀ (user : List Pat) (dir : String) (es : EntryList)
    (dRel rel : List String),
    listIsDirAt es dRel = true →
    should_ignore user (renderRel dRel) = true →
    dRel <+: rel → dRel ≠ rel →
    rel ∉ scanRel user dir es

theorem should_ignore_append_false (user extra : List Pat) (s : String)
    (h : should_ignore (user ++ extra) s = false) :
    should_ignore user s = false := by
  unfold should_ignore at h ⊢
  rw [List.any_eq_false] at h ⊢
  intro p hp
  apply h p
  rcases List.mem_append.mp hp with h1 | h1
  · exact List.mem_append.mpr (Or.inl h1)
  · exact List.mem_append.mpr (Or.inr (List.mem_append.mpr (Or.inl h1)))

theorem endsWithNL_append_nl (s : String) : endsWithNL (s ++ "\n") = true := by
  unfold endsWithNL
  rw [data_append]
  rw [show ("\n" : String).data = ['\n'] from rfl]
  rw [List.getLast?_concat]
  rfl

theorem endsWithNL_fencedBody (content : String) :
    endsWithNL (fencedBody content) = true := by
  unfold fencedBody
  cases h : endsWithNL content
  · simpa using endsWithNL_append_nl content
  · simpa using h

theorem readLoop_no_ok (attempt : String → ReadOutcome) :
    ∀ encs : List String, (∀ e ∈ encs, ∀ s, attempt e ≠ .ok s) →
      readLoop attempt encs = "# Arquivo não pôde ser decodificado" ∨
        ∃ msg, readLoop attempt encs = "# Erro ao ler arquivo: " ++ msg
  | [], _ => Or.inl rfl
  | e :: rest, h => by
    unfold readLoop
    cases ha : attempt e with
    | ok s => exact absurd ha (h e (List.mem_cons_self e rest) s)
    | decodeFailed =>
      exact readLoop_no_ok attempt rest (fun x hx => h x (List.mem_cons_of_mem e hx))
    | otherError msg =>
      exact Or.inr ⟨msg, rfl⟩

/-- C1: for every run that produces an output document, the index section
lists exactly the same relative paths, in exactly the same order, as the
body section's per-file headings (both sides are the sorted scan result's
relative paths). -/
theorem c1_index_matches_headings
    (attempt : String → String → ReadOutcome) (user : List Pat)
    (dir outputFile : String) (es : EntryList) (doc : List MdItem)
    (h : (generate_markdown attempt user dir outputFile es).2 = some doc) :
    indexPathsOf doc = headingPathsOf doc := by
  rw [generate_markdown_doc attempt user dir outputFile es doc h,
    indexPathsOf_mkDoc, headingPathsOf_mkDoc]

theorem c1_witness :
    indexPathsOf (mkDoc (fun _ _ => ReadOutcome.ok "print(1)") "repo"
        (scanRel [] "repo" (.cons (.file "a.py") .nil)))
      = headingPathsOf (mkDoc (fun _ _ => ReadOutcome.ok "print(1)") "repo"
        (scanRel [] "repo" (.cons (.file "a.py") .nil))) :=
  c1_index_matches_headings (fun _ _ => ReadOutcome.ok "print(1)") [] "repo"
    "out.md" (.cons (.file "a.py") .nil) _ rfl

/-- C2 as stated is false: with the user pattern `^a$` (semantics: equality
with "a") and root "repo", the directory "a" would be pruned under
relative-path matching, but the code probes `os.path.join("repo", "a")`,
which the pattern does not match, so "a/x.py" is scanned. -/
theorem c2_counterexample : ¬ claimC2 := by
  intro h
  have hx := h [fun s => s == "a"] "repo"
    (.cons (.dir "a" (.cons (.file "x.py") .nil)) .nil)
  revert hx
  decide

/-- C2 amended: only the file-exclusion decision probes the path relative
to the root; the pruning decision for a subdirectory probes
`os.path.join(walk root, dirname)`, which carries the root directory
argument as a prefix.  A path is scanned iff it reaches a known-extension
file, its relative path matches no pattern, and no ancestor's root-joined
path matches any pattern. -/
theorem c2_amended_scan_characterization (user : List Pat) (dir : String)
    (es : EntryList) (rel : List String) :
    rel ∈ scanRel user dir es ↔
      listHasCode es rel = true ∧
      should_ignore user (renderRel rel) = false ∧
      ∀ k, 1 ≤ k → k < rel.length →
        should_ignore user (joinAll dir (rel.take k)) = false :=
  mem_scanRel user dir es rel

/-- C3 as stated is false: in the same configuration as the C2
counterexample, the relative path "a" of directory "a" matches the
exclusion set, yet "a/x.py" below it is scanned (the prune probe
"repo/a" does not match, and the file's own relative path "a/x.py" does
not match either). -/
theorem c3_counterexample : ¬ claimC3 := by
  intro h
  have hx := h [fun s => s == "a"] "repo"
    (.cons (.dir "a" (.cons (.file "x.py") .nil)) .nil)
    ["a"] ["a", "x.py"] (by decide) (by decide) ⟨["x.py"], rfl⟩ (by decide)
  exact hx (by decide)

/-- C3 amended: for every directory the walk prunes — one whose
root-joined path `os.path.join(root, d)` matches the exclusion set — no
file underneath it appears in the scan result. -/
theorem c3_amended_pruned_subtree (user : List Pat) (dir : String)
    (es : EntryList) (rel : List String) (k : Nat)
    (hk1 : 1 ≤ k) (hk2 : k < rel.length)
    (hig : should_ignore user (joinAll dir (rel.take k)) = true) :
    rel ∉ scanRel user dir es := by
  intro hmem
  rw [mem_scanRel] at hmem
  have hf := hmem.2.2 k hk1 hk2
  rw [hf] at hig
  exact absurd hig (by decide)

theorem c3_witness :
    ["sub", "x.py"] ∉ scanRel [substrPat "sub"] "repo"
      (.cons (.dir "sub" (.cons (.file "x.py") .nil)) .nil) :=
  c3_amended_pruned_subtree [substrPat "sub"] "repo"
    (.cons (.dir "sub" (.cons (.file "x.py") .nil)) .nil)
    ["sub", "x.py"] 1 (by decide) (by decide) (by decide)

/-- C4: exclusion is monotonic: appending one more user pattern can only
shrink the scan result; no pattern re-includes a file. -/
theorem c4_exclusion_monotonic (user : List Pat) (q : Pat) (dir : String)
    (es : EntryList) (rel : List String)
    (h : rel ∈ scanRel (user ++ [q]) dir es) :
    rel ∈ scanRel user dir es := by
  rw [mem_scanRel] at h ⊢
  obtain ⟨h1, h2, h3⟩ := h
  refine ⟨h1, should_ignore_append_false user [q] _ h2, ?_⟩
  intro k hk1 hk2
  exact should_ignore_append_false user [q] _ (h3 k hk1 hk2)

theorem c4_witness :
    ["a.py"] ∈ scanRel [] "repo" (.cons (.file "a.py") .nil) :=
  c4_exclusion_monotonic [] (fun s => s == "zzz") "repo"
    (.cons (.file "a.py") .nil) ["a.py"] (by decide)

/-- C5: for every file rendered into the output, the tag on its fenced
block is the extension-to-label table's value for the file's extension
looked up case-insensitively, falling back to "text" when no entry
matches. -/
theorem c5_fence_tags_ci (attempt : String → String → ReadOutcome)
    (user : List Pat) (dir outputFile : String) (es : EntryList)
    (doc : List MdItem)
    (h : (generate_markdown attempt user dir outputFile es).2 = some doc) :
    fenceTagsOf doc
      = (scanRel user dir es).map (fun rel => ciLanguageOf (joinAll dir rel)) := by
  rw [generate_markdown_doc attempt user dir outputFile es doc h,
    fenceTagsOf_mkDoc]
  apply List.map_congr_left
  intro rel _
  exact get_language_eq_ci (joinAll dir rel)

theorem c5_witness :
    fenceTagsOf (mkDoc (fun _ _ => ReadOutcome.ok "x") "repo"
        (scanRel [] "repo" (.cons (.file "a.PY") .nil)))
      = (scanRel [] "repo" (.cons (.file "a.PY") .nil)).map
          (fun rel => ciLanguageOf (joinAll "repo" rel)) :=
  c5_fence_tags_ci (fun _ _ => ReadOutcome.ok "x") [] "repo" "out.md"
    (.cons (.file "a.PY") .nil) _ rfl

/-- C6: in every produced document, the content written between the fences
of a file block ends with a newline; it is the loaded content verbatim when
that already ends with a newline, and the content plus exactly one appended
newline otherwise. -/
theorem c6_fenced_newline (attempt : String → String → ReadOutcome)
    (user : List Pat) (dir outputFile : String) (es : EntryList)
    (doc : List MdItem)
    (h : (generate_markdown attempt user dir outputFile es).2 = some doc) :
    (∀ body ∈ fenceBodiesOf doc, endsWithNL body = true) ∧
    (∀ content : String, endsWithNL content = true → fencedBody content = content) ∧
    (∀ content : String, endsWithNL content = false →
      fencedBody content = content ++ "\n") := by
  refine ⟨?_, ?_, ?_⟩
  · intro body hb
    rw [generate_markdown_doc attempt user dir outputFile es doc h,
      fenceBodiesOf_mkDoc] at hb
    obtain ⟨rel, -, hq⟩ := List.mem_map.mp hb
    rw [← hq]
    exact endsWithNL_fencedBody _
  · intro c hc
    unfold fencedBody
    rw [if_pos hc]
  · intro c hc
    unfold fencedBody
    rw [if_neg (by rw [hc]; exact Bool.false_ne_true)]

theorem c6_witness :
    endsWithNL (fencedBody "print(1)") = true ∧
    fencedBody "x\n" = "x\n" ∧
    fencedBody "print(1)" = "print(1)" ++ "\n" := by
  have h := c6_fenced_newline (fun _ _ => ReadOutcome.ok "print(1)") []
    "repo" "out.md" (.cons (.file "a.py") .nil) _ rfl
  exact ⟨h.1 (fencedBody "print(1)") (by decide),
    h.2.1 "x\n" (by decide), h.2.2 "print(1)" (by decide)⟩

/-- C7: a file none of whose read attempts succeeds gets a short literal
placeholder from the loader instead of raising; the placeholder is rendered
into the file's block; every file still gets its section (the run
continues); and the process still exits with status 0. -/
theorem c7_unreadable_placeholder (w : World)
    (attempt : String → String → ReadOutcome) (user : List Pat)
    (dir outputFile : String) (es : EntryList) (rel : List String)
    (hfail : ∀ e ∈ encodings, ∀ s, attempt (joinAll dir rel) e ≠ .ok s) :
    (get_file_content (attempt (joinAll dir rel))
        = "# Arquivo não pôde ser decodificado" ∨
      ∃ msg, get_file_content (attempt (joinAll dir rel))
        = "# Erro ao ler arquivo: " ++ msg) ∧
    (∀ doc, (generate_markdown attempt user dir outputFile es).2 = some doc →
      (rel ∈ scanRel user dir es →
        MdItem.codeBlock (get_language_from_extension (joinAll dir rel))
          (fencedBody (get_file_content (attempt (joinAll dir rel)))) ∈ doc) ∧
      headingPathsOf doc = (scanRel user dir es).map renderRel) ∧
    (w.isDir dir = true →
      (mainRun w attempt es ⟨dir, outputFile, user⟩).1 = 0) := by
  refine ⟨readLoop_no_ok _ encodings hfail, ?_, ?_⟩
  · intro doc hdoc
    constructor
    · intro hmem
      rw [generate_markdown_doc attempt user dir outputFile es doc hdoc]
      unfold mkDoc
      refine List.mem_append.mpr (Or.inr ?_)
      refine List.mem_flatten.mpr
        ⟨fileSection attempt dir rel, List.mem_map_of_mem _ hmem, ?_⟩
      show MdItem.codeBlock _ _ ∈
        [MdItem.fileHeading _, MdItem.pathLine _, MdItem.langLine _,
          MdItem.codeBlock _ _, MdItem.fileSep]
      simp
    · rw [generate_markdown_doc attempt user dir outputFile es doc hdoc,
        headingPathsOf_mkDoc]
  · intro hdir
    unfold mainRun
    rw [if_neg (by simp [hdir])]

theorem c7_witness :
    (mainRun ⟨fun _ => true, fun _ => true⟩
        (fun _ _ => ReadOutcome.decodeFailed)
        (.cons (.file "a.py") .nil) ⟨"repo", "out.md", []⟩).1 = 0 ∧
    (get_file_content ((fun _ _ => ReadOutcome.decodeFailed)
          (joinAll "repo" ["a.py"]))
        = "# Arquivo não pôde ser decodificado" ∨
      ∃ msg, get_file_content ((fun _ _ => ReadOutcome.decodeFailed)
          (joinAll "repo" ["a.py"]))
        = "# Erro ao ler arquivo: " ++ msg) := by
  have h := c7_unreadable_placeholder ⟨fun _ => true, fun _ => true⟩
    (fun _ _ => ReadOutcome.decodeFailed) [] "repo" "out.md"
    (.cons (.file "a.py") .nil) ["a.py"]
    (fun e he s hx => by cases hx)
  exact ⟨h.2.2 rfl, h.1⟩

/-- C8: when the root path is not a directory (missing or otherwise), the
run prints the error naming the path and returns exit status 1 having done
nothing else: no scan print, no directory creation, no output write. -/
theorem c8_invalid_root (w : World) (attempt : String → String → ReadOutcome)
    (es : EntryList) (args : Args)
    (h : w.isDir args.directory = false) :
    mainRun w attempt es args =
      (1, [Effect.printed ("Erro: Diretório \x27" ++ args.directory
            ++ "\x27 não encontrado!")]) := by
  unfold mainRun
  rw [if_pos h]

theorem c8_witness :
    mainRun ⟨fun _ => false, fun _ => true⟩
        (fun _ _ => ReadOutcome.decodeFailed) .nil
        ⟨"missing", "out.md", []⟩ =
      (1, [Effect.printed ("Erro: Diretório \x27" ++ "missing"
            ++ "\x27 não encontrado!")]) :=
  c8_invalid_root ⟨fun _ => false, fun _ => true⟩
    (fun _ _ => ReadOutcome.decodeFailed) .nil ⟨"missing", "out.md", []⟩ rfl

/-- C9: when the scan of a valid root finds no eligible file, the run
prints the explicit "no code file found" message and ends without
producing a document or writing the output file. -/
theorem c9_no_files (attempt : String → String → ReadOutcome)
    (user : List Pat) (dir outputFile : String) (es : EntryList)
    (h : scanRel user dir es = []) :
    generate_markdown attempt user dir outputFile es =
      ([Effect.printed ("Escaneando diretório: " ++ dir),
        Effect.printed "Nenhum arquivo de código encontrado!"], none) := by
  unfold generate_markdown
  rw [if_pos (by rw [h]; rfl)]

theorem c9_witness :
    generate_markdown (fun _ _ => ReadOutcome.decodeFailed) [] "repo"
        "out.md" .nil =
      ([Effect.printed ("Escaneando diretório: " ++ "repo"),
        Effect.printed "Nenhum arquivo de código encontrado!"], none) :=
  c9_no_files (fun _ _ => ReadOutcome.decodeFailed) [] "repo" "out.md" .nil rfl

/-- C10: latin-1 decodes every byte sequence, so under the byte-level model
of the reads the loader never reaches the all-encodings-exhausted return:
it yields the utf-8 decoding when that succeeds, the latin-1 decoding when
utf-8 fails, or the I/O-error placeholder when the open fails. -/
theorem c10_latin1_total (fs : String → Except String (List Byte))
    (path : String) :
    (∀ bs : List Byte, decodeBytes "latin-1" bs = some ⟨latin1Decode bs⟩) ∧
    ((∃ e, fs path = .error e ∧
        get_file_content (attemptOfFs fs path)
          = "# Erro ao ler arquivo: " ++ e) ∨
     (∃ bs s, fs path = .ok bs ∧ decodeBytes "utf-8" bs = some s ∧
        get_file_content (attemptOfFs fs path) = ⟨univNewlines s.data⟩) ∨
     (∃ bs, fs path = .ok bs ∧ decodeBytes "utf-8" bs = none ∧
        get_file_content (attemptOfFs fs path)
          = ⟨univNewlines (latin1Decode bs)⟩)) := by
  constructor
  · intro bs
    rfl
  · cases hfs : fs path with
    | error e =>
      refine Or.inl ⟨e, rfl, ?_⟩
      have ha : attemptOfFs fs path "utf-8" = ReadOutcome.otherError e := by
        unfold attemptOfFs
        rw [hfs]
      unfold get_file_content
      simp only [encodings, readLoop, ha]
    | ok bs =>
      cases hdec : decodeBytes "utf-8" bs with
      | some s =>
        refine Or.inr (Or.inl ⟨bs, s, rfl, hdec, ?_⟩)
        have ha : attemptOfFs fs path "utf-8"
            = ReadOutcome.ok ⟨univNewlines s.data⟩ := by
          unfold attemptOfFs
          rw [hfs]
          show (match decodeBytes "utf-8" bs with
            | some t => ReadOutcome.ok ⟨univNewlines t.data⟩
            | none => ReadOutcome.decodeFailed)
            = ReadOutcome.ok ⟨univNewlines s.data⟩
          rw [hdec]
        unfold get_file_content
        simp only [encodings, readLoop, ha]
      | none =>
        refine Or.inr (Or.inr ⟨bs, rfl, hdec, ?_⟩)
        have ha1 : attemptOfFs fs path "utf-8" = ReadOutcome.decodeFailed := by
          unfold attemptOfFs
          rw [hfs]
          show (match decodeBytes "utf-8" bs with
            | some t => ReadOutcome.ok ⟨univNewlines t.data⟩
            | none => ReadOutcome.decodeFailed)
            = ReadOutcome.decodeFailed
          rw [hdec]
        have ha2 : attemptOfFs fs path "latin-1"
            = ReadOutcome.ok ⟨univNewlines (latin1Decode bs)⟩ := by
          unfold attemptOfFs
          rw [hfs]
          rfl
        unfold get_file_content
        simp only [encodings, readLoop, ha1, ha2]

end Code2md
